import Mathlib

/-!
Verification of the task-tracker core (models.py, operations.py, main.py).

The persisted resource (the `tasks.json` file) is modelled as a
`FileState`: absent, present with content that fails JSON decoding, or
present with a decoded list of task records.  Each store operation of
`operations.py` becomes a pure function from `FileState` to its result
together with the `FileState` after the call (the saved file, or the
unchanged one when the operation performs no save).
-/

namespace TaskTracker

/-- A stored task record: the dictionary shape written by `Task.to_dict`
and read by `Task.from_dict`.  Each of the four keys may be missing
(`from_dict` reads them with `dict.get`), hence the `Option` fields. -/
structure TaskRecord where
  id : Option Int
  title : Option String
  description : Option String
  status : Option String
  deriving DecidableEq, Repr

/-- The `Task` class of `models.py`.  `id`, `title` and `description`
hold `none` when deserialized from a record missing the key (Python
`None`); `status` is always a string because `from_dict` defaults a
missing status to `"todo"` and the constructor defaults it likewise. -/
structure Task where
  id : Option Int
  title : Option String
  description : Option String
  status : String
  deriving DecidableEq, Repr

/-- `Task.to_dict`: the dictionary with exactly the four named keys. -/
def Task.to_dict (t : Task) : TaskRecord :=
  ⟨t.id, t.title, t.description, some t.status⟩

/-- `Task.from_dict`: reads each key with `get`; a missing `status`
defaults to `"todo"`, the other fields stay absent (`None`). -/
def Task.from_dict (r : TaskRecord) : Task :=
  ⟨r.id, r.title, r.description, r.status.getD "todo"⟩

/-- Content of the tasks file when it exists: either text on which
`json.load` raises `JSONDecodeError`, or a decoded list of records. -/
inductive StoredContent where
  | unparsable : StoredContent
  | parsed : List TaskRecord → StoredContent
  deriving DecidableEq

/-- State of the persisted resource `TASKS_FILE`. -/
inductive FileState where
  | absent : FileState
  | withContent : StoredContent → FileState
  deriving DecidableEq

/-- `load_tasks`: empty list when the file is absent or undecodable,
otherwise the records mapped through `Task.from_dict`. -/
def load_tasks : FileState → List Task
  | .absent => []
  | .withContent .unparsable => []
  | .withContent (.parsed rs) => rs.map Task.from_dict

/-- `save_tasks`: writes the list, each task through `Task.to_dict`. -/
def save_tasks (tasks : List Task) : FileState :=
  .withContent (.parsed (tasks.map Task.to_dict))

/-- Python's built-in `max` on a nonempty list of ints (the `[]` case is
never reached by the code, which guards on emptiness first). -/
def listMax : List Int → Int
  | [] => 0
  | x :: xs => xs.foldl max x

/-- The ids of the tasks, provided every task has one; `none` models the
`TypeError` Python's `max` arithmetic raises when an id is `None`. -/
def idsOf : List Task → Option (List Int)
  | [] => some []
  | t :: ts =>
    match t.id, idsOf ts with
    | some i, some is => some (i :: is)
    | _, _ => none

/-- `get_new_task_id`: `1` on an empty collection, else `max id + 1`;
`none` models the uncaught `TypeError` on a collection with a `None` id. -/
def get_new_task_id (tasks : List Task) : Option Int :=
  if tasks.isEmpty then some 1
  else
    match idsOf tasks with
    | none => none
    | some ids => some (listMax ids + 1)

/-- `add_task`: load, compute the new id, append a `todo` task, save,
return the created task.  `none` models the uncaught exception from
`get_new_task_id` (no save happens in that case). -/
def add_task (title description : String) (fs : FileState) :
    Option (Task × FileState) :=
  let tasks := load_tasks fs
  match get_new_task_id tasks with
  | none => none
  | some newId =>
    let newTask : Task := ⟨some newId, some title, some description, "todo"⟩
    some (newTask, save_tasks (tasks ++ [newTask]))

/-- The for-loop of `update_task`: replace title and description of the
first task whose id matches, and report whether one was found. -/
def updateFirst (taskId : Int) (title description : String) :
    List Task → Bool × List Task
  | [] => (false, [])
  | t :: ts =>
    if t.id = some taskId then
      (true, { t with title := some title, description := some description } :: ts)
    else
      let r := updateFirst taskId title description ts
      (r.1, t :: r.2)

/-- `update_task`: load, update the first match in place, save only when
a task was found; otherwise return `False` with no save. -/
def update_task (taskId : Int) (title description : String)
    (fs : FileState) : Bool × FileState :=
  let r := updateFirst taskId title description (load_tasks fs)
  if r.1 then (true, save_tasks r.2) else (false, fs)

/-- `delete_task`: keep the tasks whose id differs; save and return
`True` exactly when the filtered list is shorter. -/
def delete_task (taskId : Int) (fs : FileState) : Bool × FileState :=
  let tasks := load_tasks fs
  let updated_tasks := tasks.filter fun t => decide (t.id ≠ some taskId)
  if updated_tasks.length = tasks.length then (false, fs)
  else (true, save_tasks updated_tasks)

/-- The for-loop of `mark_task`: set the status of the first task whose
id matches, and report whether one was found. -/
def markFirst (taskId : Int) (newStatus : String) :
    List Task → Bool × List Task
  | [] => (false, [])
  | t :: ts =>
    if t.id = some taskId then
      (true, { t with status := newStatus } :: ts)
    else
      let r := markFirst taskId newStatus ts
      (r.1, t :: r.2)

/-- `mark_task`: load, set the status of the first match, save only when
a task was found; otherwise return `False` with no save. -/
def mark_task (taskId : Int) (newStatus : String)
    (fs : FileState) : Bool × FileState :=
  let r := markFirst taskId newStatus (load_tasks fs)
  if r.1 then (true, save_tasks r.2) else (false, fs)

/-- `list_tasks`: load and filter by status; any unrecognized filter
falls back to the full list. -/
def list_tasks (filterBy : String) (fs : FileState) : List Task :=
  let tasks := load_tasks fs
  if filterBy = "all" then tasks
  else if filterBy = "done" then tasks.filter fun t => decide (t.status = "done")
  else if filterBy = "not_done" then tasks.filter fun t => decide (t.status ≠ "done")
  else if filterBy = "in_progress" then tasks.filter fun t => decide (t.status = "in_progress")
  else tasks

/-- The status values the CLI `mark` subcommand accepts (the argparse
`choices` list in `main.py`). -/
def markStatusChoices : List String := ["todo", "in_progress", "done"]

/-- One store mutation, as invokable from the presentation layers. -/
inductive Op where
  | add (title description : String)
  | update (taskId : Int) (title description : String)
  | delete (taskId : Int)
  | setStatus (taskId : Int) (status : String)

/-- The file state after one operation.  An `add` whose
`get_new_task_id` raises leaves the file untouched (the exception
propagates before any save). -/
def applyOp (fs : FileState) : Op → FileState
  | .add t d =>
    match add_task t d fs with
    | none => fs
    | some (_, fs') => fs'
  | .update i t d => (update_task i t d fs).2
  | .delete i => (delete_task i fs).2
  | .setStatus i s => (mark_task i s fs).2

/-- The file state after a sequence of operations. -/
def applyOps (fs : FileState) (ops : List Op) : FileState :=
  ops.foldl applyOp fs

/-- The uniqueness invariant: the ids in the persisted collection are
pairwise distinct. -/
def idsNodup (fs : FileState) : Prop :=
  ((load_tasks fs).map Task.id).Nodup

-- Basic helper lemmas ------------------------------------------------

lemma from_dict_to_dict (t : Task) : Task.from_dict (Task.to_dict t) = t := rfl

lemma load_save (ts : List Task) : load_tasks (save_tasks ts) = ts := by
  simp only [load_tasks, save_tasks, List.map_map]
  exact (List.map_congr_left fun t _ => from_dict_to_dict t).trans (List.map_id ts)

lemma updateFirst_not_found (i : Int) (t d : String) (ts : List Task)
    (h : ∀ x ∈ ts, x.id ≠ some i) :
    updateFirst i t d ts = (false, ts) := by
  induction ts with
  | nil => rfl
  | cons a as ih =>
    have ha : a.id ≠ some i := h a (List.mem_cons_self a as)
    simp [updateFirst, ha, ih fun x hx => h x (List.mem_cons_of_mem a hx)]

lemma updateFirst_decomp (i : Int) (t d : String) (pre : List Task)
    (tk : Task) (post : List Task)
    (hpre : ∀ x ∈ pre, x.id ≠ some i) (htk : tk.id = some i) :
    updateFirst i t d (pre ++ tk :: post) =
      (true, pre ++ { tk with title := some t, description := some d } :: post) := by
  induction pre with
  | nil => simp [updateFirst, htk]
  | cons a as ih =>
    have ha : a.id ≠ some i := hpre a (List.mem_cons_self a as)
    simp [updateFirst, ha, ih fun x hx => hpre x (List.mem_cons_of_mem a hx)]

lemma markFirst_not_found (i : Int) (s : String) (ts : List Task)
    (h : ∀ x ∈ ts, x.id ≠ some i) :
    markFirst i s ts = (false, ts) := by
  induction ts with
  | nil => rfl
  | cons a as ih =>
    have ha : a.id ≠ some i := h a (List.mem_cons_self a as)
    simp [markFirst, ha, ih fun x hx => h x (List.mem_cons_of_mem a hx)]

lemma markFirst_decomp (i : Int) (s : String) (pre : List Task)
    (tk : Task) (post : List Task)
    (hpre : ∀ x ∈ pre, x.id ≠ some i) (htk : tk.id = some i) :
    markFirst i s (pre ++ tk :: post) =
      (true, pre ++ { tk with status := s } :: post) := by
  induction pre with
  | nil => simp [markFirst, htk]
  | cons a as ih =>
    have ha : a.id ≠ some i := hpre a (List.mem_cons_self a as)
    simp [markFirst, ha, ih fun x hx => hpre x (List.mem_cons_of_mem a hx)]

lemma exists_first_decomp (ts : List Task) (i : Int)
    (h : ∃ tk ∈ ts, tk.id = some i) :
    ∃ pre tk post, ts = pre ++ tk :: post ∧
      (∀ x ∈ pre, x.id ≠ some i) ∧ tk.id = some i := by
  induction ts with
  | nil => simp at h
  | cons a as ih =>
    by_cases ha : a.id = some i
    · exact ⟨[], a, as, rfl, by simp, ha⟩
    · obtain ⟨tk, htk, hid⟩ := h
      rcases List.mem_cons.mp htk with rfl | hmem
      · exact absurd hid ha
      · obtain ⟨pre, tk', post, heq, hpre, hid'⟩ := ih ⟨tk, hmem, hid⟩
        refine ⟨a :: pre, tk', post, by rw [heq]; rfl, ?_, hid'⟩
        intro x hx
        rcases List.mem_cons.mp hx with rfl | hx'
        · exact ha
        · exact hpre x hx'

lemma markFirst_markFirst (i : Int) (s : String) (ts : List Task) :
    markFirst i s (markFirst i s ts).2 =
      ((markFirst i s ts).1, (markFirst i s ts).2) := by
  induction ts with
  | nil => rfl
  | cons a as ih =>
    by_cases ha : a.id = some i
    · simp [markFirst, ha]
    · simp [markFirst, ha, ih]

lemma delete_task_eq (i : Int) (fs : FileState) :
    delete_task i fs =
      if ((load_tasks fs).filter fun t => decide (t.id ≠ some i)).length =
          (load_tasks fs).length
      then (false, fs)
      else (true, save_tasks ((load_tasks fs).filter fun t => decide (t.id ≠ some i))) :=
  rfl

lemma le_foldl_max (b : Int) (xs : List Int) : b ≤ xs.foldl max b := by
  induction xs generalizing b with
  | nil => exact le_refl b
  | cons x xs ih =>
    show b ≤ xs.foldl max (max b x)
    exact le_trans (le_max_left b x) (ih (max b x))

lemma mem_le_foldl_max : ∀ (xs : List Int) (b x : Int), x ∈ xs → x ≤ xs.foldl max b
  | y :: ys, b, x, hx => by
    rcases List.mem_cons.mp hx with rfl | h
    · show x ≤ ys.foldl max (max b x)
      exact le_trans (le_max_right b x) (le_foldl_max _ ys)
    · show x ≤ ys.foldl max (max b y)
      exact mem_le_foldl_max ys (max b y) x h

lemma foldl_max_mem : ∀ (xs : List Int) (b : Int), xs.foldl max b ∈ b :: xs
  | [], _ => List.mem_cons_self _ _
  | y :: ys, b => by
    have hmem := foldl_max_mem ys (max b y)
    show ys.foldl max (max b y) ∈ b :: y :: ys
    rcases List.mem_cons.mp hmem with h | h
    · rcases max_choice b y with hb | hy
      · rw [h, hb]; exact List.mem_cons_self _ _
      · rw [h, hy]; exact List.mem_cons_of_mem _ (List.mem_cons_self _ _)
    · exact List.mem_cons_of_mem _ (List.mem_cons_of_mem _ h)

lemma listMax_ge (l : List Int) (x : Int) (hx : x ∈ l) : x ≤ listMax l := by
  cases l with
  | nil => cases hx
  | cons y ys =>
    rcases List.mem_cons.mp hx with rfl | h
    · exact le_foldl_max x ys
    · exact mem_le_foldl_max ys y x h

lemma listMax_mem (l : List Int) (h : l ≠ []) : listMax l ∈ l := by
  cases l with
  | nil => exact absurd rfl h
  | cons y ys => exact foldl_max_mem ys y

lemma idsOf_some (ts : List Task) (h : ∀ tk ∈ ts, (Task.id tk).isSome) :
    ∃ ids, idsOf ts = some ids := by
  induction ts with
  | nil => exact ⟨[], rfl⟩
  | cons a as ih =>
    obtain ⟨ids, hids⟩ := ih fun x hx => h x (List.mem_cons_of_mem a hx)
    have ha := h a (List.mem_cons_self a as)
    cases hid : a.id with
    | none => rw [hid] at ha; cases ha
    | some i => exact ⟨i :: ids, by simp [idsOf, hid, hids]⟩

lemma idsOf_mem_iff (ts : List Task) (ids : List Int)
    (h : idsOf ts = some ids) (x : Int) :
    x ∈ ids ↔ ∃ tk ∈ ts, tk.id = some x := by
  induction ts generalizing ids with
  | nil =>
    simp only [idsOf, Option.some_inj] at h
    subst h
    simp
  | cons a as ih =>
    cases ha : a.id with
    | none => simp [idsOf, ha] at h
    | some i =>
      cases has : idsOf as with
      | none => simp [idsOf, ha, has] at h
      | some is =>
        simp only [idsOf, ha, has, Option.some_inj] at h
        subst h
        simp only [List.mem_cons, ih is has, ha, Option.some_inj]
        constructor
        · rintro (rfl | ⟨tk, htk, hid⟩)
          · exact ⟨a, Or.inl rfl, ha⟩
          · exact ⟨tk, Or.inr htk, hid⟩
        · rintro ⟨tk, (rfl | htk), hid⟩
          · rw [ha] at hid
            exact Or.inl (Option.some_inj.mp hid).symm
          · exact Or.inr ⟨tk, htk, hid⟩

lemma idsOf_cons_ne_nil (a : Task) (as : List Task) (ids : List Int)
    (h : idsOf (a :: as) = some ids) : ids ≠ [] := by
  cases ha : a.id with
  | none => simp [idsOf, ha] at h
  | some i =>
    cases has : idsOf as with
    | none => simp [idsOf, ha, has] at h
    | some is =>
      simp only [idsOf, ha, has, Option.some_inj] at h
      subst h
      exact List.cons_ne_nil i is

lemma get_new_task_id_isSome (ts : List Task)
    (h : ∀ tk ∈ ts, (Task.id tk).isSome) :
    ∃ n, get_new_task_id ts = some n := by
  cases ts with
  | nil => exact ⟨1, rfl⟩
  | cons a as =>
    obtain ⟨ids, hids⟩ := idsOf_some _ h
    exact ⟨listMax ids + 1, by simp [get_new_task_id, hids]⟩

lemma get_new_task_id_lt (ts : List Task) (n : Int)
    (h : get_new_task_id ts = some n) :
    ∀ tk ∈ ts, ∀ i, tk.id = some i → i < n := by
  intro tk htk i hi
  cases ts with
  | nil => cases htk
  | cons a as =>
    cases hids : idsOf (a :: as) with
    | none => simp [get_new_task_id, hids] at h
    | some ids =>
      simp only [get_new_task_id, List.isEmpty_cons, hids, if_false,
        Bool.false_eq_true, Option.some_inj] at h
      have hmem : i ∈ ids := (idsOf_mem_iff _ _ hids i).mpr ⟨tk, htk, hi⟩
      have hle := listMax_ge ids i hmem
      omega

lemma updateFirst_map_id (i : Int) (t d : String) (ts : List Task) :
    (updateFirst i t d ts).2.map Task.id = ts.map Task.id := by
  induction ts with
  | nil => rfl
  | cons a as ih =>
    by_cases ha : a.id = some i <;> simp [updateFirst, ha, ih]

lemma markFirst_map_id (i : Int) (s : String) (ts : List Task) :
    (markFirst i s ts).2.map Task.id = ts.map Task.id := by
  induction ts with
  | nil => rfl
  | cons a as ih =>
    by_cases ha : a.id = some i <;> simp [markFirst, ha, ih]

lemma length_filter_status_partition (l : List Task) :
    (l.filter fun t => decide (t.status = "done")).length +
      (l.filter fun t => decide (t.status ≠ "done")).length = l.length := by
  induction l with
  | nil => rfl
  | cons a as ih =>
    simp only [decide_not] at ih ⊢
    by_cases h : a.status = "done" <;> simp [List.filter_cons, h] <;> omega

-- Claim theorems (first batch) ---------------------------------------

/-- C2: `update_task(id, title, description)` replaces the title and
description of the first task with the given id (its status and every
other task unchanged) and saves, returning `True`; when no task has the
id it returns `False` and leaves the file untouched, so a subsequent
`load_tasks` is unchanged. -/
theorem update_task_spec (i : Int) (t d : String) (fs : FileState) :
    ((∃ tk ∈ load_tasks fs, tk.id = some i) →
      ∃ pre tk post,
        load_tasks fs = pre ++ tk :: post ∧
        (∀ x ∈ pre, x.id ≠ some i) ∧ tk.id = some i ∧
        (update_task i t d fs).1 = true ∧
        (update_task i t d fs).2 =
          save_tasks (pre ++ { tk with title := some t, description := some d } :: post) ∧
        load_tasks (update_task i t d fs).2 =
          pre ++ { tk with title := some t, description := some d } :: post) ∧
    ((∀ tk ∈ load_tasks fs, tk.id ≠ some i) →
      (update_task i t d fs).1 = false ∧
      (update_task i t d fs).2 = fs ∧
      load_tasks (update_task i t d fs).2 = load_tasks fs) := by
  constructor
  · intro h
    obtain ⟨pre, tk, post, heq, hpre, hid⟩ := exists_first_decomp (load_tasks fs) i h
    have hu := updateFirst_decomp i t d pre tk post hpre hid
    refine ⟨pre, tk, post, heq, hpre, hid, ?_, ?_, ?_⟩ <;>
      simp [update_task, heq, hu, load_save]
  · intro h
    have hu := updateFirst_not_found i t d (load_tasks fs) h
    simp [update_task, hu]

/-- C3: `load_tasks` returns the stored records in stored order, mapped
through `Task.from_dict`; an absent file yields the empty list, and a
file whose content fails JSON decoding also yields the empty list rather
than an error. -/
theorem load_tasks_spec :
    load_tasks FileState.absent = [] ∧
    load_tasks (FileState.withContent .unparsable) = [] ∧
    (∀ rs : List TaskRecord,
      load_tasks (FileState.withContent (.parsed rs)) = rs.map Task.from_dict) ∧
    (∀ rs : List TaskRecord, ∀ k : Nat,
      (load_tasks (FileState.withContent (.parsed rs)))[k]? =
        (rs[k]?).map Task.from_dict) := by
  refine ⟨rfl, rfl, fun _ => rfl, fun rs k => ?_⟩
  simp [load_tasks]

/-- C7: `mark_task` is idempotent — applying the same status twice in
succession leaves the same observable collection (the same `load_tasks`
result) as applying it once. -/
theorem mark_task_idempotent (i : Int) (s : String) (fs : FileState) :
    load_tasks (mark_task i s (mark_task i s fs).2).2 =
      load_tasks (mark_task i s fs).2 := by
  by_cases h : (markFirst i s (load_tasks fs)).1 = true
  · have h1 : (mark_task i s fs).2 = save_tasks (markFirst i s (load_tasks fs)).2 := by
      simp [mark_task, h]
    rw [h1]
    simp [mark_task, load_save, markFirst_markFirst, h]
  · have h1 : (mark_task i s fs).2 = fs := by
      simp [mark_task, h]
    rw [h1, h1]

/-- C9: serialization round-trips — `from_dict (to_dict t)` restores the
task exactly; `to_dict` produces the record with exactly the four named
fields; deserializing a record missing `status` defaults it to `"todo"`,
and one missing `id`, `title` or `description` keeps that field absent
without being rejected. -/
theorem task_serialization_spec :
    (∀ t : Task, Task.from_dict (Task.to_dict t) = t) ∧
    (∀ t : Task, Task.to_dict t =
      TaskRecord.mk t.id t.title t.description (some t.status)) ∧
    (∀ i ti de, Task.from_dict (TaskRecord.mk i ti de none) =
      Task.mk i ti de "todo") ∧
    (∀ ti de s, (Task.from_dict (TaskRecord.mk none ti de s)).id = none) ∧
    (∀ i de s, (Task.from_dict (TaskRecord.mk i none de s)).title = none) ∧
    (∀ i ti s, (Task.from_dict (TaskRecord.mk i ti none s)).description = none) :=
  ⟨fun _ => rfl, fun _ => rfl, fun _ _ _ => rfl,
    fun _ _ _ => rfl, fun _ _ _ => rfl, fun _ _ _ => rfl⟩

/-- C10: the store does not validate the status value — for any string
`s`, even outside the CLI's closed choice list, `mark_task` on an
existing id succeeds and the persisted task's status becomes exactly
`s`; only the CLI's argparse `choices` restricts the three values. -/
theorem mark_task_no_validation (i : Int) (s : String) (fs : FileState)
    (h : ∃ tk ∈ load_tasks fs, tk.id = some i) :
    markStatusChoices = ["todo", "in_progress", "done"] ∧
    (mark_task i s fs).1 = true ∧
    ∃ pre tk post,
      load_tasks fs = pre ++ tk :: post ∧
      (∀ x ∈ pre, x.id ≠ some i) ∧ tk.id = some i ∧
      load_tasks (mark_task i s fs).2 = pre ++ { tk with status := s } :: post := by
  obtain ⟨pre, tk, post, heq, hpre, hid⟩ := exists_first_decomp (load_tasks fs) i h
  have hm := markFirst_decomp i s pre tk post hpre hid
  refine ⟨rfl, ?_, pre, tk, post, heq, hpre, hid, ?_⟩ <;>
    simp [mark_task, heq, hm, load_save]

/-- Witness for C10 at a concrete store and a status outside the CLI's
closed set. -/
theorem mark_task_no_validation_witness :
    "bogus" ∉ markStatusChoices ∧
    (mark_task 1 "bogus"
      (save_tasks [⟨some 1, some "a", some "b", "todo"⟩])).1 = true := by
  refine ⟨by decide, ?_⟩
  exact (mark_task_no_validation 1 "bogus"
    (save_tasks [⟨some 1, some "a", some "b", "todo"⟩])
    ⟨⟨some 1, some "a", some "b", "todo"⟩, by simp [load_save], rfl⟩).2.1

/-- Witness for C2 at a concrete store. -/
theorem update_task_spec_witness :
    (update_task 1 "x" "y"
      (save_tasks [⟨some 1, some "a", some "b", "todo"⟩])).1 = true ∧
    (∀ tk ∈ load_tasks (save_tasks ([] : List Task)), tk.id ≠ some 1) ∧
    (update_task 1 "x" "y" (save_tasks ([] : List Task))).1 = false := by
  refine ⟨?_, ?_, ?_⟩
  · obtain ⟨pre, tk, post, _, _, _, htrue, _⟩ :=
      (update_task_spec 1 "x" "y"
        (save_tasks [⟨some 1, some "a", some "b", "todo"⟩])).1
        ⟨⟨some 1, some "a", some "b", "todo"⟩, by simp [load_save], rfl⟩
    exact htrue
  · simp [load_save]
  · exact ((update_task_spec 1 "x" "y" (save_tasks ([] : List Task))).2
      (by simp [load_save])).1

-- Invariant preservation (C1) ----------------------------------------

lemma applyOp_nodup (fs : FileState) (op : Op) (h : idsNodup fs) :
    idsNodup (applyOp fs op) := by
  cases op with
  | add t d =>
    show idsNodup (match add_task t d fs with
      | none => fs
      | some (_, fs') => fs')
    cases hid : get_new_task_id (load_tasks fs) with
    | none => simp [add_task, hid]; exact h
    | some n =>
      simp only [add_task, hid]
      show idsNodup (save_tasks (load_tasks fs ++ [⟨some n, some t, some d, "todo"⟩]))
      have hlt := get_new_task_id_lt (load_tasks fs) n hid
      unfold idsNodup at h ⊢
      rw [load_save, List.map_append]
      rw [List.nodup_append]
      refine ⟨h, List.nodup_singleton _, ?_⟩
      intro x hx hx'
      simp only [List.map_cons, List.map_nil, List.mem_singleton] at hx'
      subst hx'
      obtain ⟨tk, htk, hidtk⟩ := List.mem_map.mp hx
      exact absurd (hlt tk htk n hidtk) (lt_irrefl n)
  | update i t d =>
    show idsNodup (update_task i t d fs).2
    by_cases hb : (updateFirst i t d (load_tasks fs)).1 = true
    · have : (update_task i t d fs).2 =
          save_tasks (updateFirst i t d (load_tasks fs)).2 := by
        simp [update_task, hb]
      rw [this]
      unfold idsNodup at h ⊢
      rw [load_save, updateFirst_map_id]
      exact h
    · have : (update_task i t d fs).2 = fs := by simp [update_task, hb]
      rw [this]; exact h
  | delete i =>
    show idsNodup (delete_task i fs).2
    by_cases hl : ((load_tasks fs).filter fun t => decide (t.id ≠ some i)).length =
        (load_tasks fs).length
    · have : (delete_task i fs).2 = fs := by rw [delete_task_eq, if_pos hl]
      rw [this]; exact h
    · have : (delete_task i fs).2 =
          save_tasks ((load_tasks fs).filter fun t => decide (t.id ≠ some i)) := by
        rw [delete_task_eq, if_neg hl]
      rw [this]
      unfold idsNodup at h ⊢
      rw [load_save]
      exact h.sublist (List.Sublist.map Task.id (List.filter_sublist _))
  | setStatus i s =>
    show idsNodup (mark_task i s fs).2
    by_cases hb : (markFirst i s (load_tasks fs)).1 = true
    · have : (mark_task i s fs).2 =
          save_tasks (markFirst i s (load_tasks fs)).2 := by
        simp [mark_task, hb]
      rw [this]
      unfold idsNodup at h ⊢
      rw [load_save, markFirst_map_id]
      exact h
    · have : (mark_task i s fs).2 = fs := by simp [mark_task, hb]
      rw [this]; exact h

lemma applyOps_nodup (ops : List Op) (fs : FileState) (h : idsNodup fs) :
    idsNodup (applyOps fs ops) := by
  induction ops generalizing fs with
  | nil => exact h
  | cons op ops ih => exact ih (applyOp fs op) (applyOp_nodup fs op h)

/-- C1: starting from an absent file or an empty saved collection, the
ids in the persisted collection stay pairwise distinct after every
sequence of add, update, delete and set-status operations; in
particular the ids created by any sequence of adds are distinct. -/
theorem ids_pairwise_distinct (ops : List Op) :
    idsNodup (applyOps FileState.absent ops) ∧
    idsNodup (applyOps (save_tasks []) ops) :=
  ⟨applyOps_nodup ops _ (by simp [idsNodup, load_tasks]),
    applyOps_nodup ops _ (by simp [idsNodup, load_save])⟩

/-- C4: `add_task` returns the task `⟨NextId, title, description,
"todo"⟩` and persists the old collection with it appended, so it is
retrievable via `list_tasks "all"`. -/
theorem add_task_spec (title description : String) (fs : FileState)
    (h : ∀ tk ∈ load_tasks fs, (Task.id tk).isSome) :
    ∃ n fs',
      get_new_task_id (load_tasks fs) = some n ∧
      add_task title description fs =
        some (⟨some n, some title, some description, "todo"⟩, fs') ∧
      fs' = save_tasks
        (load_tasks fs ++ [⟨some n, some title, some description, "todo"⟩]) ∧
      load_tasks fs' =
        load_tasks fs ++ [⟨some n, some title, some description, "todo"⟩] ∧
      list_tasks "all" fs' =
        load_tasks fs ++ [⟨some n, some title, some description, "todo"⟩] := by
  obtain ⟨n, hn⟩ := get_new_task_id_isSome (load_tasks fs) h
  refine ⟨n, save_tasks
    (load_tasks fs ++ [⟨some n, some title, some description, "todo"⟩]),
    hn, ?_, rfl, load_save _, ?_⟩
  · simp [add_task, hn]
  · simp [list_tasks, load_save]

/-- Witness for C4: adding to an absent store yields the task with id 1
and a one-element collection. -/
theorem add_task_spec_witness :
    (∀ tk ∈ load_tasks FileState.absent, (Task.id tk).isSome) ∧
    ∃ n fs',
      get_new_task_id (load_tasks FileState.absent) = some n ∧
      add_task "Buy milk" "" FileState.absent =
        some (⟨some n, some "Buy milk", some "", "todo"⟩, fs') ∧
      fs' = save_tasks
        (load_tasks FileState.absent ++ [⟨some n, some "Buy milk", some "", "todo"⟩]) ∧
      load_tasks fs' =
        load_tasks FileState.absent ++ [⟨some n, some "Buy milk", some "", "todo"⟩] ∧
      list_tasks "all" fs' =
        load_tasks FileState.absent ++ [⟨some n, some "Buy milk", some "", "todo"⟩] :=
  ⟨by simp [load_tasks],
    add_task_spec "Buy milk" "" FileState.absent (by simp [load_tasks])⟩

/-- C5: `get_new_task_id` is `1` on the empty collection and otherwise
`1 + max id`: the returned value is `m + 1` for some id `m` occurring in
the collection that bounds every id from above. -/
theorem get_new_task_id_spec :
    get_new_task_id [] = some 1 ∧
    ∀ ts : List Task, ts ≠ [] → (∀ tk ∈ ts, (Task.id tk).isSome) →
      ∃ m, get_new_task_id ts = some (m + 1) ∧
        (∃ tk ∈ ts, tk.id = some m) ∧
        (∀ tk ∈ ts, ∀ i, tk.id = some i → i ≤ m) := by
  refine ⟨rfl, fun ts hne h => ?_⟩
  cases ts with
  | nil => exact absurd rfl hne
  | cons a as =>
    obtain ⟨ids, hids⟩ := idsOf_some (a :: as) h
    refine ⟨listMax ids, by simp [get_new_task_id, hids], ?_, ?_⟩
    · exact (idsOf_mem_iff _ _ hids (listMax ids)).mp
        (listMax_mem ids (idsOf_cons_ne_nil a as ids hids))
    · intro tk htk i hi
      exact listMax_ge ids i ((idsOf_mem_iff _ _ hids i).mpr ⟨tk, htk, hi⟩)

/-- Witness for C5: the spec's example, ids `{5, 2}` yield next id 6. -/
theorem get_new_task_id_spec_witness :
    get_new_task_id [⟨some 5, some "a", some "b", "todo"⟩,
      ⟨some 2, some "c", some "d", "todo"⟩] = some 6 ∧
    ∃ m, get_new_task_id [⟨some 5, some "a", some "b", "todo"⟩,
        ⟨some 2, some "c", some "d", "todo"⟩] = some (m + 1) ∧
      (∃ tk ∈ [⟨some 5, some "a", some "b", "todo"⟩,
        (⟨some 2, some "c", some "d", "todo"⟩ : Task)], tk.id = some m) ∧
      (∀ tk ∈ [⟨some 5, some "a", some "b", "todo"⟩,
        (⟨some 2, some "c", some "d", "todo"⟩ : Task)],
        ∀ i, tk.id = some i → i ≤ m) :=
  ⟨rfl, get_new_task_id_spec.2 _ (by decide) (by decide)⟩

/-- C6: `delete_task` removes exactly the tasks with the given id,
keeps the remaining tasks in order (a sublist of the original), saves
and returns `True` when at least one was removed; with no match it
returns `False` and performs no save. -/
theorem delete_task_spec (i : Int) (fs : FileState) :
    ((∃ tk ∈ load_tasks fs, tk.id = some i) →
      (delete_task i fs).1 = true ∧
      (delete_task i fs).2 =
        save_tasks ((load_tasks fs).filter fun t => decide (t.id ≠ some i)) ∧
      load_tasks (delete_task i fs).2 =
        (load_tasks fs).filter (fun t => decide (t.id ≠ some i)) ∧
      List.Sublist (load_tasks (delete_task i fs).2) (load_tasks fs) ∧
      (∀ tk, tk ∈ load_tasks (delete_task i fs).2 ↔
        tk ∈ load_tasks fs ∧ tk.id ≠ some i)) ∧
    ((∀ tk ∈ load_tasks fs, tk.id ≠ some i) →
      (delete_task i fs).1 = false ∧ (delete_task i fs).2 = fs) := by
  constructor
  · intro h
    obtain ⟨tk, htk, hid⟩ := h
    have hlt : ((load_tasks fs).filter fun t => decide (t.id ≠ some i)).length <
        (load_tasks fs).length := by
      apply List.length_filter_lt_length_iff_exists.mpr
      exact ⟨tk, htk, by simp [hid]⟩
    have hne : ¬(((load_tasks fs).filter fun t => decide (t.id ≠ some i)).length =
        (load_tasks fs).length) := Nat.ne_of_lt hlt
    rw [delete_task_eq, if_neg hne]
    refine ⟨rfl, rfl, load_save _, ?_, ?_⟩
    · rw [load_save]
      exact List.filter_sublist _
    · intro x
      rw [load_save]
      simp [List.mem_filter]
  · intro h
    have heq : (load_tasks fs).filter (fun t => decide (t.id ≠ some i)) =
        load_tasks fs :=
      List.filter_eq_self.mpr fun a ha => by simp [h a ha]
    rw [delete_task_eq, if_pos (by rw [heq])]
    exact ⟨rfl, rfl⟩

/-- Witness for C6: deleting id 1 from a one-task store succeeds;
deleting from the empty store fails and leaves the file unchanged. -/
theorem delete_task_spec_witness :
    (delete_task 1 (save_tasks [⟨some 1, some "a", some "b", "todo"⟩])).1 = true ∧
    (delete_task 1 (save_tasks ([] : List Task))).1 = false ∧
    (delete_task 1 (save_tasks ([] : List Task))).2 = save_tasks [] := by
  refine ⟨?_, ?_⟩
  · exact ((delete_task_spec 1
      (save_tasks [⟨some 1, some "a", some "b", "todo"⟩])).1
      ⟨⟨some 1, some "a", some "b", "todo"⟩, by simp [load_save], rfl⟩).1
  · exact (delete_task_spec 1 (save_tasks ([] : List Task))).2
      (by simp [load_save])

/-- C8: `list_tasks "done"` and `list_tasks "not_done"` partition
`list_tasks "all"` exactly — each is the corresponding status filter of
the full list, their lengths add up, each preserves the original order
(sublists), and every listed task lands in exactly one side. -/
theorem list_tasks_partition (fs : FileState) :
    list_tasks "done" fs =
      (list_tasks "all" fs).filter (fun t => decide (t.status = "done")) ∧
    list_tasks "not_done" fs =
      (list_tasks "all" fs).filter (fun t => decide (t.status ≠ "done")) ∧
    (list_tasks "done" fs).length + (list_tasks "not_done" fs).length =
      (list_tasks "all" fs).length ∧
    List.Sublist (list_tasks "done" fs) (list_tasks "all" fs) ∧
    List.Sublist (list_tasks "not_done" fs) (list_tasks "all" fs) ∧
    ∀ tk ∈ list_tasks "all" fs,
      (tk ∈ list_tasks "done" fs ↔ tk.status = "done") ∧
      (tk ∈ list_tasks "not_done" fs ↔ tk.status ≠ "done") := by
  have hall : list_tasks "all" fs = load_tasks fs := rfl
  have hdone : list_tasks "done" fs =
      (load_tasks fs).filter (fun t => decide (t.status = "done")) := by
    simp [list_tasks]
  have hnot : list_tasks "not_done" fs =
      (load_tasks fs).filter (fun t => decide (t.status ≠ "done")) := by
    simp [list_tasks]
  refine ⟨by rw [hall, hdone], by rw [hall, hnot], ?_, ?_, ?_, ?_⟩
  · rw [hall, hdone, hnot]
    exact length_filter_status_partition (load_tasks fs)
  · rw [hall, hdone]; exact List.filter_sublist _
  · rw [hall, hnot]; exact List.filter_sublist _
  · intro tk htk
    rw [hall] at htk
    constructor
    · rw [hdone]
      simp [List.mem_filter, htk]
    · rw [hnot]
      simp [List.mem_filter, htk]

/-- Witness for C8 at a concrete two-task store with one done task. -/
theorem list_tasks_partition_witness :
    (list_tasks "done" (save_tasks [⟨some 1, some "a", some "b", "done"⟩,
        ⟨some 2, some "c", some "d", "todo"⟩])).length +
      (list_tasks "not_done" (save_tasks [⟨some 1, some "a", some "b", "done"⟩,
        ⟨some 2, some "c", some "d", "todo"⟩])).length =
      (list_tasks "all" (save_tasks [⟨some 1, some "a", some "b", "done"⟩,
        ⟨some 2, some "c", some "d", "todo"⟩])).length ∧
    ((⟨some 1, some "a", some "b", "done"⟩ : Task) ∈
      list_tasks "done" (save_tasks [⟨some 1, some "a", some "b", "done"⟩,
        ⟨some 2, some "c", some "d", "todo"⟩]) ↔
      (Task.mk (some 1) (some "a") (some "b") "done").status = "done") := by
  have h := list_tasks_partition (save_tasks [⟨some 1, some "a", some "b", "done"⟩,
    ⟨some 2, some "c", some "d", "todo"⟩])
  refine ⟨h.2.2.1, ?_⟩
  exact (h.2.2.2.2.2 ⟨some 1, some "a", some "b", "done"⟩
    (by simp [list_tasks, load_save])).1

end TaskTracker
